import Mathlib

/-!
Verification development for the IntuPlayer audio player
(source: `src/Intu_Player2.2.py`, class `AudioPlayer`).

The Python code is shallowly embedded: JSON values are an inductive type,
the mutable player object becomes an explicit `PlayerState` record, and each
method of `AudioPlayer` that the specification talks about becomes a pure
state-transforming function.  External boundaries (the filesystem listing
returned by `QDir.entryInfoList`, the `os.path.isdir` test, the file-dialog
result, the `os.path.exists` test used by `load_image`) are passed in as
explicit parameters.  Python exceptions that can escape a method are
modelled with `Except`.
-/

/-! ## JSON values (the shape `json.load` / `json.dump` work with) -/

/-- A JSON value, as produced by Python's `json.load`.  Numbers are modelled
as integers, which covers every value the program itself ever writes. -/
inductive JValue where
  | null : JValue
  | bool : Bool → JValue
  | num : Int → JValue
  | str : String → JValue
  | arr : List JValue → JValue
  | obj : List (String × JValue) → JValue
deriving Repr

/-- `dict.get(key, dflt)` on a parsed JSON object.  `json.load` keeps the
last occurrence of a duplicated key, so lookup is last-wins. -/
def jGet (kvs : List (String × JValue)) (key : String) (dflt : JValue) : JValue :=
  match kvs with
  | [] => dflt
  | (k, v) :: rest => jGet rest key (if k = key then v else dflt)

/-- Python truthiness (`if x:`) restricted to JSON values. -/
def truthy : JValue → Bool
  | .null => false
  | .bool b => b
  | .num n => n != 0
  | .str s => s != ""
  | .arr xs => !xs.isEmpty
  | .obj kvs => !kvs.isEmpty

/-! ## Settings persistence (`save_settings` / `load_settings`) -/

/-- The typed settings record the application keeps in its attributes
(`self.last_dir`, `self.last_device_desc`, `self.playlist_memory`,
`self.current_file_path`).  The window geometry is not part of this record:
`save_settings` reads it from the live window. -/
structure Settings where
  last_dir : String
  last_device_desc : String
  playlist_memory : List String
  current_file_path : Option String
deriving Repr, DecidableEq

/-- `None`/`str` Python value as a JSON value. -/
def jOfOptStr : Option String → JValue
  | none => .null
  | some s => .str s

/-- `AudioPlayer.save_settings`: the JSON object written to `settings.json`.
`geometry_b64` is `self.saveGeometry().toBase64().data().decode('utf-8')`,
read from the live window. -/
def save_settings (s : Settings) (geometry_b64 : String) : JValue :=
  .obj [ ("last_dir", .str s.last_dir),
         ("last_device_desc", .str s.last_device_desc),
         ("playlist_memory", .arr (s.playlist_memory.map .str)),
         ("current_file_path", jOfOptStr s.current_file_path),
         ("window_geometry", .str geometry_b64) ]

/-- The attributes of the player after `load_settings` ran.  The fields hold
raw JSON values because the Python assignments (`self.last_dir =
data.get(...)`) perform no type checking.  `window_geometry` keeps the
base64 text that was decoded (the `QByteArray.fromBase64` wrapping is
opaque to every claim). -/
structure RawSettings where
  last_dir : JValue
  last_device_desc : JValue
  playlist_memory : JValue
  current_file_path : JValue
  window_geometry : Option String
deriving Repr

/-- The defaults set in `AudioPlayer.__init__` before `load_settings`. -/
def defaultRawSettings : RawSettings :=
  { last_dir := .str ""
    last_device_desc := .str ""
    playlist_memory := .arr []
    current_file_path := .null
    window_geometry := none }

/-- `AudioPlayer.load_settings`.  The input models the state of the
settings file: `none` = file missing (`os.path.exists` false), `some none`
= file present but `json.load` raises `json.JSONDecodeError` (caught, so
the defaults survive), `some (some v)` = file parses to the JSON value `v`.
Only `json.JSONDecodeError` is caught: if `v` is not an object,
`data.get(...)` raises `AttributeError`; if its `window_geometry` entry is
truthy but not a string, `geometry_base64.encode('utf-8')` raises. -/
def load_settings (file : Option (Option JValue)) : Except String RawSettings :=
  match file with
  | none => .ok defaultRawSettings
  | some none => .ok defaultRawSettings
  | some (some data) =>
    match data with
    | .obj kvs =>
      let last_dir := jGet kvs "last_dir" (.str "")
      let last_device_desc := jGet kvs "last_device_desc" (.str "")
      let playlist_memory := jGet kvs "playlist_memory" (.arr [])
      let current_file_path := jGet kvs "current_file_path" .null
      let geometry_base64 := jGet kvs "window_geometry" .null
      if truthy geometry_base64 then
        match geometry_base64 with
        | .str g =>
            .ok { last_dir, last_device_desc, playlist_memory, current_file_path,
                  window_geometry := some g }
        | _ => .error "AttributeError"
      else
        .ok { last_dir, last_device_desc, playlist_memory, current_file_path,
              window_geometry := none }
    | _ => .error "AttributeError"

/-! ## Path helpers (`os.path` on forward-slash paths)

The program normalizes every stored path to forward slashes
(`.replace(os.sep, '/')`), so the posixpath variants are modelled. -/

/-- Index one past the last `'/'` (`p.rfind('/') + 1` in posixpath);
`0` when there is no slash. -/
def lastSlashSucc : List Char → Nat
  | [] => 0
  | c :: rest =>
    let r := lastSlashSucc rest
    if r ≠ 0 then r + 1 else if c = '/' then 1 else 0

/-- `os.path.basename` for forward-slash paths: everything after the last slash. -/
def basename (p : String) : String :=
  ⟨p.data.drop (lastSlashSucc p.data)⟩

/-- `str.rstrip('/')`. -/
def dropTrailingSlashes (cs : List Char) : List Char :=
  (cs.reverse.dropWhile (· = '/')).reverse

/-- `os.path.dirname` for forward-slash paths (posixpath: keep everything up
to the last slash, then strip trailing slashes unless the head is all
slashes). -/
def dirname (p : String) : String :=
  let head := p.data.take (lastSlashSucc p.data)
  if head ≠ [] ∧ head.any (· ≠ '/') then ⟨dropTrailingSlashes head⟩ else ⟨head⟩

/-- Index of the last occurrence of `c` (`str.rfind`), `none` if absent. -/
def lastIndexOf (c : Char) : List Char → Option Nat
  | [] => none
  | x :: rest =>
    match lastIndexOf c rest with
    | some i => some (i + 1)
    | none => if x = c then some 0 else none

/-- The root part of `os.path.splitext(p)` (posixpath): cut at the last dot,
provided it lies in the final path component and some non-dot character of
that component precedes it (leading dots never start an extension). -/
def splitext_base (p : String) : String :=
  let cs := p.data
  let slashSucc := lastSlashSucc cs
  match lastIndexOf '.' cs with
  | none => p
  | some d =>
    if slashSucc ≤ d then
      if ((cs.drop slashSucc).take (d - slashSucc)).any (· ≠ '.') then ⟨cs.take d⟩ else p
    else p

/-! ## Companion image lookup (`AudioPlayer.load_image`) -/

/-- The fixed extension order tried by `load_image`. -/
def imageExts : List String := [".jpg", ".jpeg", ".png", ".bmp", ".gif"]

/-- The `for ext in [...]` loop of `load_image` with its `break`:
`ex` models `os.path.exists`. -/
def load_image_loop (ex : String → Bool) (base : String) : List String → Option String
  | [] => none
  | e :: rest => if ex (base ++ e) then some (base ++ e) else load_image_loop ex base rest

/-- `AudioPlayer.load_image`, restricted to the companion-image resolution it
performs (`self.current_image_path`); the pixmap display is presentation
glue outside the model. -/
def load_image (ex : String → Bool) (audio_path : String) : Option String :=
  load_image_loop ex (splitext_base audio_path) imageExts

/-! ## Pinyin sort key (`pypinyin.lazy_pinyin`)

Modelled from the spec: `lazy_pinyin` is an external transliteration
library, treated as an injected strategy (spec §9).  It maps each Chinese
character to its lowercase-ASCII pinyin reading and passes every other
character through unchanged; the model uses a representative finite
reading table. -/

/-- Representative readings table for `lazy_pinyin`. -/
def pinyinTable : List (Char × List Char) :=
  [('啊', ['a']), ('妈', ['m', 'a']), ('马', ['m', 'a']),
   ('波', ['b', 'o']), ('乐', ['l', 'e']), ('云', ['y', 'u', 'n'])]

/-- Transliteration of one character: table reading for Chinese characters,
pass-through otherwise. -/
def pinyinChar (c : Char) : List Char :=
  (pinyinTable.lookup c).getD [c]

/-- `''.join(lazy_pinyin(s))` on the character list of `s`. -/
def keyList (cs : List Char) : List Char :=
  (cs.map pinyinChar).flatten

/-- The sort key used by `load_directory_to_playlist`:
`''.join(lazy_pinyin(os.path.basename(path)))`. -/
def sortKey (p : String) : List Char :=
  keyList (basename p).data

/-- Code-point lexicographic `≤` on character lists — the order Python uses
to compare the (string) sort keys. -/
def lexLE : List Char → List Char → Bool
  | [], _ => true
  | _ :: _, [] => false
  | a :: as, b :: bs =>
    if a.toNat < b.toNat then true
    else if b.toNat < a.toNat then false
    else lexLE as bs

/-- The comparison `files.sort(key=...)` effectively sorts by. -/
def keyLE (a b : String) : Prop := lexLE (sortKey a) (sortKey b) = true

instance : DecidableRel keyLE := fun a b => by unfold keyLE; infer_instance

/-- Case-insensitive filename order: the order `QDir.entryInfoList` returns
entries in (Qt's default `QDir` sorting is `Name | IgnoreCase`; Qt's case
folding is modelled by `Char.toLower`, basic-latin folding). -/
def ciNameLE (a b : String) : Prop :=
  lexLE ((basename a).data.map Char.toLower) ((basename b).data.map Char.toLower) = true

instance : DecidableRel ciNameLE := fun a b => by unfold ciNameLE; infer_instance

/-- Ordered by pinyin key, with key ties broken by the original filename. -/
def scanLE (a b : String) : Prop :=
  keyLE a b ∧ (sortKey a = sortKey b → lexLE (basename a).data (basename b).data = true)

/-! ## Player state and transport operations -/

/-- The `AudioPlayer` attributes the specified behavior depends on, plus the
playback-engine state the player drives (`playing`/`position` stand for
`QMediaPlayer.playbackState()`/`position()`; paused and stopped are both
`playing = false`). -/
structure PlayerState where
  last_dir : String
  playlist : List String
  playlist_memory : List String
  current_index : Int
  current_file_path : Option String
  playing : Bool
  position : Int
deriving Repr, DecidableEq

/-- `AudioPlayer.play_file`: records the path, re-sources the engine
(which resets the position) and starts playback.  The companion-image
display it triggers is covered by `load_image`. -/
def play_file (file_path : String) (s : PlayerState) : PlayerState :=
  { s with current_file_path := some file_path, playing := true, position := 0 }

/-- `AudioPlayer.stop`: `player.stop()` halts playback and resets the
position. -/
def stop (s : PlayerState) : PlayerState :=
  { s with playing := false, position := 0 }

/-- `AudioPlayer.play_next`. -/
def play_next (s : PlayerState) : PlayerState :=
  if s.playlist.isEmpty then s
  else
    let i : Int := (s.current_index + 1) % (s.playlist.length : Int)
    play_file (s.playlist.getD i.toNat "") { s with current_index := i }

/-- `AudioPlayer.play_previous`. -/
def play_previous (s : PlayerState) : PlayerState :=
  if s.playlist.isEmpty then s
  else
    let i : Int := (s.current_index - 1) % (s.playlist.length : Int)
    play_file (s.playlist.getD i.toNat "") { s with current_index := i }

/-- `AudioPlayer.load_directory_to_playlist`.  `listing` is the extension-
filtered, sep-normalized file list `QDir.entryInfoList` produced for the
directory; the Python code then stable-sorts it by pinyin key (Timsort is
stable, so any stable sort — here insertion sort — is extensionally the
same) and installs it as both `playlist` and `playlist_memory`. -/
def load_directory_to_playlist (listing : List String) (s : PlayerState) : PlayerState :=
  let files := List.insertionSort keyLE listing
  { s with playlist := files, playlist_memory := files }

/-- `AudioPlayer.playlist_file_double_clicked`: `playlist.index(file_path)`
raises `ValueError` when absent, which the method catches with `pass`. -/
def playlist_file_double_clicked (file_path : String) (s : PlayerState) : PlayerState :=
  if file_path ∈ s.playlist then
    let index := s.playlist.indexOf file_path
    if index < s.playlist.length then
      play_file (s.playlist.getD index "") { s with current_index := (index : Int) }
    else s
  else s

/-- `AudioPlayer.open_file`.  `dialog_result` models the file-dialog return
(`none` = cancelled); `listing` models `entryInfoList` for the chosen
file's directory.  `os.path.abspath(...).replace(os.sep, '/')` is the
identity here because the dialog already yields absolute forward-slash
paths. -/
def open_file (dialog_result : Option String) (listing : List String) (s : PlayerState) :
    PlayerState :=
  match dialog_result with
  | none => s
  | some file_path =>
    let s1 := { s with last_dir := dirname file_path }
    let normalized := file_path
    let s2 := load_directory_to_playlist listing s1
    let s3 := play_file normalized s2
    if normalized ∈ s3.playlist then
      { s3 with current_index := (s3.playlist.indexOf normalized : Int) }
    else
      { s3 with current_index := -1 }

/-- Python truthiness of an optional string (`if self.current_file_path:`). -/
def strOptTruthy : Option String → Bool
  | none => false
  | some p => p != ""

/-- `AudioPlayer.reload_current_directory_playlist`.  `listing` models
`entryInfoList` for the reloaded directory, `isdir` models
`os.path.isdir(current_dir)`. -/
def reload_current_directory_playlist (listing : List String) (isdir : Bool)
    (s : PlayerState) : PlayerState :=
  let current_dir : String :=
    if strOptTruthy s.current_file_path then dirname (s.current_file_path.getD "")
    else if s.last_dir ≠ "" then s.last_dir
    else ""
  if current_dir ≠ "" ∧ isdir then
    let was_playing := s.playing
    let current_pos := if was_playing then s.position else 0
    let s1 := load_directory_to_playlist listing s
    match s1.current_file_path with
    | some p =>
      if p ∈ s1.playlist then
        let s2 := { s1 with current_index := (s1.playlist.indexOf p : Int) }
        -- setSource stops the engine and resets the position; setPosition
        -- then restores `current_pos`, and play() resumes when it was playing.
        let s3 := { s2 with playing := false, position := current_pos }
        if was_playing then { s3 with playing := true } else s3
      else
        let s4 := stop s1
        { s4 with current_index := -1, current_file_path := none }
    | none =>
      let s4 := stop s1
      { s4 with current_index := -1, current_file_path := none }
  else s

/-! ## JSON serialization (`json.dump`)

Only the facts the claims need: the file receives the full serialized
record, and a serialized object is a nonempty string.  The pretty-printing
whitespace of `json.dump(..., indent=2)` and the escaping of control
characters are abstracted away. -/

/-- JSON string escaping (quotes and backslashes). -/
def jsonEscapeChar (c : Char) : List Char :=
  if c = '"' ∨ c = '\\' then ['\\', c] else [c]

/-- Escape a string for a JSON literal. -/
def jsonEscape (s : String) : String :=
  ⟨(s.data.map jsonEscapeChar).flatten⟩

mutual

/-- Serialize a JSON value (compact form of `json.dump`). -/
def jsonSerialize : JValue → String
  | .null => "null"
  | .bool true => "true"
  | .bool false => "false"
  | .num n => toString n
  | .str s => "\"" ++ jsonEscape s ++ "\""
  | .arr xs => "[" ++ jsonSerializeList xs ++ "]"
  | .obj kvs => "\x7b" ++ jsonSerializeObj kvs ++ "\x7d"

/-- Serialize the comma-separated elements of a JSON array. -/
def jsonSerializeList : List JValue → String
  | [] => ""
  | [x] => jsonSerialize x
  | x :: rest => jsonSerialize x ++ ", " ++ jsonSerializeList rest

/-- Serialize the comma-separated entries of a JSON object. -/
def jsonSerializeObj : List (String × JValue) → String
  | [] => ""
  | [(k, v)] => "\"" ++ jsonEscape k ++ "\": " ++ jsonSerialize v
  | (k, v) :: rest =>
    "\"" ++ jsonEscape k ++ "\": " ++ jsonSerialize v ++ ", " ++ jsonSerializeObj rest

end

/-- The cursor/selection invariant of the spec: the cursor is `-1` exactly
when the playlist is empty or no entry equals the current file path, and
otherwise it is a valid index whose entry is the current file path. -/
def cursorInv (s : PlayerState) : Prop :=
  (s.current_index = -1 ↔
    (s.playlist = [] ∨ ∀ q ∈ s.playlist, s.current_file_path ≠ some q)) ∧
  (s.current_index ≠ -1 →
    0 ≤ s.current_index ∧ s.current_index < s.playlist.length ∧
    s.current_file_path = some (s.playlist.getD s.current_index.toNat ""))

/-- Content of `settings.json` after `save_settings` returns:
`open(SETTINGS_FILE, "w")` truncates whatever was there (`_prev`) and
`json.dump` writes the full serialization of the record. -/
def settings_file_after_save (_prev : String) (s : Settings) (geometry_b64 : String) :
    String :=
  jsonSerialize (save_settings s geometry_b64)

/-- Content of `settings.json` if the process dies after `open(..., "w")`
truncated the file and exactly `k` bytes of the new serialization were
flushed. -/
def settings_file_midwrite_crash (_prev : String) (s : Settings) (geometry_b64 : String)
    (k : Nat) : String :=
  ⟨(jsonSerialize (save_settings s geometry_b64)).data.take k⟩

/-! ## Concrete states used by witnesses and counterexamples -/

/-- Concrete two-track state used to witness the navigation theorems. -/
def navState : PlayerState :=
  { last_dir := "", playlist := ["/m/a.mp3", "/m/b.mp3"], playlist_memory := [],
    current_index := 0, current_file_path := some "/m/a.mp3", playing := true,
    position := 0 }
/-- Concrete three-track no-selection state used to witness `C10`. -/
def noSelectionState : PlayerState :=
  { last_dir := "", playlist := ["/m/a.mp3", "/m/b.mp3", "/m/c.mp3"],
    playlist_memory := [], current_index := -1, current_file_path := none,
    playing := false, position := 0 }
/-- Concrete one-track state used by the C7 counterexample. -/
def examplePlaylistState : PlayerState :=
  { last_dir := "/d", playlist := ["/d/a.mp3"], playlist_memory := ["/d/a.mp3"],
    current_index := 0, current_file_path := some "/d/a.mp3", playing := true,
    position := 0 }
/-- Concrete playing state used to witness `C5`. -/
def reloadState : PlayerState :=
  { last_dir := "/d", playlist := ["/d/a.mp3"], playlist_memory := ["/d/a.mp3"],
    current_index := 0, current_file_path := some "/d/a.mp3", playing := true,
    position := 5000 }

/-! # Theorems -/

/-! ## C1: save/load round trip -/

/-- C1: For every settings record `S`, `save(S)` followed by `load()` returns
a record equal to `S` on all round-trippable fields (`last_dir`,
`last_device_desc`, `playlist_memory`, `current_file_path`). -/
theorem save_load_roundtrip (S : Settings) (g : String) :
    load_settings (some (some (save_settings S g))) =
      .ok { last_dir := .str S.last_dir
            last_device_desc := .str S.last_device_desc
            playlist_memory := .arr (S.playlist_memory.map .str)
            current_file_path := jOfOptStr S.current_file_path
            window_geometry := if g = "" then none else some g } := by
  by_cases hg : g = "" <;>
    simp [load_settings, save_settings, jGet, truthy, hg]

/-! ## C2: load never raises / defaults -/

/-- C2, counterexample: the settings file can hold content on which `load()`
raises.  `[]` is valid JSON (so `json.JSONDecodeError` is not raised), but
it is not an object, and `data.get("last_dir", "")` raises
`AttributeError`, which `load_settings` does not catch. -/
theorem load_settings_raises_on_nonobject_json :
    load_settings (some (some (.arr []))) = .error "AttributeError" := rfl

/-- C2, amended: `load()` returns the defaults (empty strings, empty list,
no current file, no geometry) when the file is missing or its content is
not parseable JSON, and in those two cases it never raises; but when the
content parses to a JSON value, the call raises exactly when that value is
not an object, or is an object whose `window_geometry` entry is truthy and
not a string. -/
theorem load_settings_defaults_and_failure :
    load_settings none = .ok defaultRawSettings ∧
    load_settings (some none) = .ok defaultRawSettings ∧
    ∀ v : JValue,
      (∃ e, load_settings (some (some v)) = .error e) ↔
        ((∀ kvs, v ≠ .obj kvs) ∨
          (∃ kvs, v = .obj kvs ∧
            truthy (jGet kvs "window_geometry" .null) = true ∧
            ∀ g, jGet kvs "window_geometry" .null ≠ .str g)) := by
  refine ⟨rfl, rfl, fun v => ?_⟩
  cases v with
  | obj kvs =>
    simp only [load_settings]
    by_cases ht : truthy (jGet kvs "window_geometry" .null)
    · cases hgeo : jGet kvs "window_geometry" .null <;>
        simp_all
    · simp_all
  | null => simp [load_settings]
  | bool b => simp [load_settings]
  | num n => simp [load_settings]
  | str s => simp [load_settings]
  | arr xs => simp [load_settings]

/-! ## C9: companion image resolution -/

/-- C9: For every audio path opened, the companion image resolved is the
first existing file sharing the audio file's base name among the
extensions tried in the fixed order jpg, jpeg, png, bmp, gif, and is none
when no such file exists. -/
theorem load_image_first_existing (ex : String → Bool) (audio_path : String) :
    load_image ex audio_path =
      (imageExts.find? (fun e => ex (splitext_base audio_path ++ e))).map
        (fun e => splitext_base audio_path ++ e) ∧
    (load_image ex audio_path = none ↔
      ∀ e ∈ imageExts, ex (splitext_base audio_path ++ e) = false) := by
  have gen : ∀ (exts : List String) (base : String),
      load_image_loop ex base exts =
        (exts.find? (fun e => ex (base ++ e))).map (fun e => base ++ e) := by
    intro exts base
    induction exts with
    | nil => rfl
    | cons e rest ih =>
      by_cases h : ex (base ++ e) <;> simp [load_image_loop, List.find?, h, ih]
  constructor
  · exact gen imageExts (splitext_base audio_path)
  · rw [load_image, gen]
    simp [List.find?_eq_none]

/-! ## C8: save overwrites; not crash-atomic -/

/-- C8, counterexample: `save_settings` opens `settings.json` with mode
`"w"`, which truncates it before anything is written.  Starting from a
previously valid file (the output of a completed save), a crash after the
truncation and before any byte of the new record is flushed leaves an
empty file — the previously valid content is not intact. -/
theorem save_midwrite_crash_loses_previous_content :
    settings_file_midwrite_crash
        (settings_file_after_save "" ⟨"", "", [], none⟩ "") ⟨"", "", [], none⟩ "" 0 = "" ∧
    settings_file_after_save "" ⟨"", "", [], none⟩ "" ≠ "" := by
  exact ⟨rfl, by decide⟩

/-- C8, amended: `save(Settings)` overwrites the prior file content with the
full serialized record (the resulting content does not depend on what was
there before), but it is not atomic with respect to a crash mid-write: the
file is truncated when opened, so an interrupted save leaves only the
first `k` characters of the new serialization — in particular, a crash
right after the open leaves an empty file, which is never the (nonempty)
previously valid record. -/
theorem save_overwrites_in_place_not_atomic (prev : String) (S : Settings) (g : String) :
    settings_file_after_save prev S g = jsonSerialize (save_settings S g) ∧
    settings_file_midwrite_crash prev S g 0 = "" ∧
    settings_file_after_save prev S g ≠ "" := by
  refine ⟨rfl, rfl, fun hcontra => ?_⟩
  have hlen : (settings_file_after_save prev S g).length = 0 := by rw [hcontra]; rfl
  rw [settings_file_after_save, save_settings, jsonSerialize] at hlen
  simp [String.length_append] at hlen
  exact absurd hlen.1.1 (by decide)

/-! ## Navigation helpers (shared by several claims) -/

theorem play_next_playlist_eq (s : PlayerState) : (play_next s).playlist = s.playlist := by
  unfold play_next play_file
  split <;> rfl

theorem play_previous_playlist_eq (s : PlayerState) :
    (play_previous s).playlist = s.playlist := by
  unfold play_previous play_file
  split <;> rfl

theorem play_next_index (s : PlayerState) (h : s.playlist ≠ []) :
    (play_next s).current_index = (s.current_index + 1) % (s.playlist.length : Int) := by
  unfold play_next play_file
  rw [if_neg (by simp [h])]

theorem play_previous_index (s : PlayerState) (h : s.playlist ≠ []) :
    (play_previous s).current_index = (s.current_index - 1) % (s.playlist.length : Int) := by
  unfold play_previous play_file
  rw [if_neg (by simp [h])]

theorem play_next_iter (s : PlayerState) (h : s.playlist ≠ [])
    (h0 : 0 ≤ s.current_index) (h1 : s.current_index < s.playlist.length) :
    ∀ n : Nat, (play_next^[n] s).playlist = s.playlist ∧
      (play_next^[n] s).current_index =
        (s.current_index + n) % (s.playlist.length : Int) := by
  intro n
  induction n with
  | zero =>
    refine ⟨rfl, ?_⟩
    simpa using (Int.emod_eq_of_lt h0 h1).symm
  | succ n ih =>
    rw [Function.iterate_succ_apply']
    obtain ⟨hpl, hidx⟩ := ih
    have hne : (play_next^[n] s).playlist ≠ [] := hpl ▸ h
    refine ⟨by rw [play_next_playlist_eq, hpl], ?_⟩
    rw [play_next_index _ hne, hpl, hidx]
    push_cast
    rw [Int.emod_add_emod]
    ring_nf

theorem play_previous_iter (s : PlayerState) (h : s.playlist ≠ [])
    (h0 : 0 ≤ s.current_index) (h1 : s.current_index < s.playlist.length) :
    ∀ n : Nat, (play_previous^[n] s).playlist = s.playlist ∧
      (play_previous^[n] s).current_index =
        (s.current_index - n) % (s.playlist.length : Int) := by
  intro n
  induction n with
  | zero =>
    refine ⟨rfl, ?_⟩
    simpa using (Int.emod_eq_of_lt h0 h1).symm
  | succ n ih =>
    rw [Function.iterate_succ_apply']
    obtain ⟨hpl, hidx⟩ := ih
    have hne : (play_previous^[n] s).playlist ≠ [] := hpl ▸ h
    refine ⟨by rw [play_previous_playlist_eq, hpl], ?_⟩
    rw [play_previous_index _ hne, hpl, hidx]
    push_cast
    conv_lhs => rw [Int.sub_eq_add_neg, Int.emod_add_emod]
    congr 1
    ring

theorem play_next_file_path (s : PlayerState) (h : s.playlist ≠ []) :
    (play_next s).current_file_path =
      some (s.playlist.getD ((s.current_index + 1) % (s.playlist.length : Int)).toNat "") := by
  unfold play_next play_file
  rw [if_neg (by simp [h])]

theorem play_next_playing (s : PlayerState) (h : s.playlist ≠ []) :
    (play_next s).playing = true := by
  unfold play_next play_file
  rw [if_neg (by simp [h])]

/-! ## C4: wraparound closure of next/previous -/

/-- C4, counterexample: the claim quantifies over every starting cursor, but
from the no-selection cursor `-1` the cursor does not return to `-1` after
`N` steps — on a one-element playlist a single `play_next` moves the cursor
to `(-1 + 1) mod 1 = 0`, and it can never be `-1` again. -/
theorem wraparound_fails_from_cursor_neg_one :
    (play_next^[(["/m/a.mp3"] : List String).length]
      { last_dir := "", playlist := ["/m/a.mp3"], playlist_memory := [],
        current_index := -1, current_file_path := none, playing := false,
        position := 0 : PlayerState }).current_index ≠ -1 := by
  decide

/-- C4, amended: for every non-empty playlist of length `N` and every
starting cursor `c` that is a valid index (`0 ≤ c < N`), `next()` applied
`N` times returns the cursor to `c`, and likewise `previous()` applied `N`
times, each single step moving the cursor by `(cursor + 1) mod N` and
`(cursor - 1) mod N` respectively.  (For the out-of-range cursor `-1` the
closure fails; see the counterexample.) -/
theorem next_prev_wraparound_closure (s : PlayerState) (h : s.playlist ≠ [])
    (h0 : 0 ≤ s.current_index) (h1 : s.current_index < s.playlist.length) :
    (play_next^[s.playlist.length] s).current_index = s.current_index ∧
    (play_previous^[s.playlist.length] s).current_index = s.current_index ∧
    (play_next s).current_index = (s.current_index + 1) % (s.playlist.length : Int) ∧
    (play_previous s).current_index = (s.current_index - 1) % (s.playlist.length : Int) := by
  have hn := (play_next_iter s h h0 h1 s.playlist.length).2
  have hp := (play_previous_iter s h h0 h1 s.playlist.length).2
  refine ⟨?_, ?_, play_next_index s h, play_previous_index s h⟩
  · rw [hn, Int.add_emod_self, Int.emod_eq_of_lt h0 h1]
  · rw [hp, Int.emod_sub_cancel, Int.emod_eq_of_lt h0 h1]


/-- Witness for `next_prev_wraparound_closure` at a concrete state. -/
theorem next_prev_wraparound_closure_witness :
    (play_next^[navState.playlist.length] navState).current_index =
      navState.current_index ∧
    (play_previous^[navState.playlist.length] navState).current_index =
      navState.current_index ∧
    (play_next navState).current_index =
      (navState.current_index + 1) % (navState.playlist.length : Int) ∧
    (play_previous navState).current_index =
      (navState.current_index - 1) % (navState.playlist.length : Int) :=
  next_prev_wraparound_closure navState (by decide) (by decide) (by decide)

/-! ## C10: next/previous from the no-selection cursor -/

/-- C10: For every non-empty playlist of length `N` with cursor `-1`,
`next()` sets the cursor to `0` and plays the first track, while
`previous()` sets the cursor to `(N - 2) mod N` — the second-to-last track
for `N ≥ 2`, not the last one. -/
theorem next_prev_from_no_selection (s : PlayerState)
    (hidx : s.current_index = -1) (hne : s.playlist ≠ []) :
    (play_next s).current_index = 0 ∧
    (play_next s).current_file_path = some (s.playlist.getD 0 "") ∧
    (play_next s).playing = true ∧
    (play_previous s).current_index =
      ((s.playlist.length : Int) - 2) % (s.playlist.length : Int) ∧
    (2 ≤ s.playlist.length →
      (play_previous s).current_index = (s.playlist.length : Int) - 2 ∧
      (play_previous s).current_index ≠ (s.playlist.length : Int) - 1) := by
  have hL : (0 : Int) < (s.playlist.length : Int) := by
    exact_mod_cast List.length_pos.mpr hne
  have hnext : (play_next s).current_index = 0 := by
    rw [play_next_index s hne, hidx]
    simp
  have hprev : (play_previous s).current_index =
      ((s.playlist.length : Int) - 2) % (s.playlist.length : Int) := by
    rw [play_previous_index s hne, hidx,
      show ((s.playlist.length : Int) - 2) =
        -1 - 1 + (s.playlist.length : Int) * 1 by ring,
      Int.add_mul_emod_self_left]
  refine ⟨hnext, ?_, play_next_playing s hne, hprev, fun h2 => ?_⟩
  · rw [play_next_file_path s hne, hidx]
    simp
  · have h2' : (2 : Int) ≤ (s.playlist.length : Int) := by exact_mod_cast h2
    have heq : (play_previous s).current_index = (s.playlist.length : Int) - 2 := by
      rw [hprev, Int.emod_eq_of_lt (by omega) (by omega)]
    exact ⟨heq, by omega⟩


/-- Witness for `next_prev_from_no_selection` at a concrete state. -/
theorem next_prev_from_no_selection_witness :
    (play_next noSelectionState).current_index = 0 ∧
    (play_next noSelectionState).current_file_path =
      some (noSelectionState.playlist.getD 0 "") ∧
    (play_next noSelectionState).playing = true ∧
    (play_previous noSelectionState).current_index =
      ((noSelectionState.playlist.length : Int) - 2) %
        (noSelectionState.playlist.length : Int) ∧
    (2 ≤ noSelectionState.playlist.length →
      (play_previous noSelectionState).current_index =
        (noSelectionState.playlist.length : Int) - 2 ∧
      (play_previous noSelectionState).current_index ≠
        (noSelectionState.playlist.length : Int) - 1) :=
  next_prev_from_no_selection noSelectionState rfl (by decide)

/-! ## C7: selection by path -/

theorem getD_indexOf_of_mem {l : List String} {p : String} (h : p ∈ l) :
    l.getD (l.indexOf p) "" = p := by
  have hlt : l.indexOf p < l.length := List.indexOf_lt_length.mpr h
  rw [List.getD_eq_getElem?_getD, List.getElem?_eq_getElem hlt]
  simp [List.getElem_indexOf hlt]


/-- C7, counterexample: selecting a path absent from the playlist does not
fail with `NotFoundError` — the `ValueError` from `list.index` is caught
with `pass`, the call returns normally and the state is unchanged. -/
theorem select_absent_path_silently_ignored :
    playlist_file_double_clicked "/d/missing.mp3" examplePlaylistState =
      examplePlaylistState := by
  decide

/-- C7, amended: selecting a track by path sets the cursor to its index and
starts playing it when the path is present in the playlist; when it is
absent, the lookup failure is caught and ignored — the call is a silent
no-op (the playing state is untouched and no error, `NotFoundError` or
otherwise, reaches the caller; the Python method always returns `None`,
so no index is returned either). -/
theorem select_by_path_behavior (p : String) (s : PlayerState) :
    playlist_file_double_clicked p s =
      if p ∈ s.playlist then
        play_file p { s with current_index := (s.playlist.indexOf p : Int) }
      else s := by
  by_cases h : p ∈ s.playlist
  · simp only [playlist_file_double_clicked, if_pos h,
      if_pos (List.indexOf_lt_length.mpr h), getD_indexOf_of_mem h]
  · simp only [playlist_file_double_clicked, if_neg h]

/-! ## C6: the cursor/selection invariant -/

theorem play_previous_file_path (s : PlayerState) (h : s.playlist ≠ []) :
    (play_previous s).current_file_path =
      some (s.playlist.getD ((s.current_index - 1) % (s.playlist.length : Int)).toNat "") := by
  unfold play_previous play_file
  rw [if_neg (by simp [h])]

theorem cursorInv_of_valid (t : PlayerState)
    (h0 : 0 ≤ t.current_index) (h1 : t.current_index < t.playlist.length)
    (hp : t.current_file_path = some (t.playlist.getD t.current_index.toNat "")) :
    cursorInv t := by
  have hne : t.playlist ≠ [] := by
    intro hnil
    rw [hnil] at h1
    simp at h1
    omega
  have hlt : t.current_index.toNat < t.playlist.length := by omega
  have hmem : t.playlist.getD t.current_index.toNat "" ∈ t.playlist := by
    rw [List.getD_eq_getElem?_getD, List.getElem?_eq_getElem hlt]
    simp
  constructor
  · constructor
    · intro hi
      rw [hi] at h0
      exact absurd h0 (by norm_num)
    · intro hcase
      exfalso
      rcases hcase with hnil | hall
      · exact hne hnil
      · exact hall _ hmem hp
  · intro _
    exact ⟨h0, h1, hp⟩

theorem cursorInv_of_absent (t : PlayerState) (hi : t.current_index = -1)
    (hp : ∀ q ∈ t.playlist, t.current_file_path ≠ some q) : cursorInv t := by
  refine ⟨⟨fun _ => Or.inr hp, fun _ => hi⟩, fun hne => absurd hi hne⟩

theorem cursorInv_play_next (s : PlayerState) (hs : cursorInv s) :
    cursorInv (play_next s) := by
  by_cases h : s.playlist = []
  · unfold play_next
    rw [if_pos (by simp [h])]
    exact hs
  · have hL : (0 : Int) < (s.playlist.length : Int) := by
      exact_mod_cast List.length_pos.mpr h
    apply cursorInv_of_valid
    · rw [play_next_index s h]
      exact Int.emod_nonneg _ (by omega)
    · rw [play_next_playlist_eq, play_next_index s h]
      exact Int.emod_lt_of_pos _ hL
    · rw [play_next_file_path s h, play_next_playlist_eq, play_next_index s h]

theorem cursorInv_play_previous (s : PlayerState) (hs : cursorInv s) :
    cursorInv (play_previous s) := by
  by_cases h : s.playlist = []
  · unfold play_previous
    rw [if_pos (by simp [h])]
    exact hs
  · have hL : (0 : Int) < (s.playlist.length : Int) := by
      exact_mod_cast List.length_pos.mpr h
    apply cursorInv_of_valid
    · rw [play_previous_index s h]
      exact Int.emod_nonneg _ (by omega)
    · rw [play_previous_playlist_eq, play_previous_index s h]
      exact Int.emod_lt_of_pos _ hL
    · rw [play_previous_file_path s h, play_previous_playlist_eq, play_previous_index s h]

theorem cursorInv_select (s : PlayerState) (p : String) (hs : cursorInv s) :
    cursorInv (playlist_file_double_clicked p s) := by
  by_cases h : p ∈ s.playlist
  · have hlt := List.indexOf_lt_length.mpr h
    simp only [playlist_file_double_clicked, if_pos h, if_pos hlt]
    apply cursorInv_of_valid
    · simp [play_file]
    · simp only [play_file]
      exact_mod_cast hlt
    · simp [play_file]
  · simp only [playlist_file_double_clicked, if_neg h]
    exact hs

theorem cursorInv_open_file (s : PlayerState) (r : Option String) (listing : List String)
    (hs : cursorInv s) : cursorInv (open_file r listing s) := by
  cases r with
  | none => exact hs
  | some fp =>
    simp only [open_file, load_directory_to_playlist, play_file]
    by_cases h : fp ∈ List.insertionSort keyLE listing
    · rw [if_pos h]
      apply cursorInv_of_valid
      · simp
      · simpa using List.indexOf_lt_length.mpr h
      · simp only [Int.toNat_natCast]
        rw [getD_indexOf_of_mem h]
    · rw [if_neg h]
      apply cursorInv_of_absent
      · rfl
      · intro q hq hqe
        simp only [Option.some.injEq] at hqe
        exact h (hqe ▸ hq)

theorem cursorInv_reload_core (u : PlayerState) (pos0 : Int) (wp : Bool) :
    cursorInv (match u.current_file_path with
      | some p =>
        if p ∈ u.playlist then
          if wp = true then
            { u with current_index := (u.playlist.indexOf p : Int), playing := true,
                     position := pos0 }
          else
            { u with current_index := (u.playlist.indexOf p : Int), playing := false,
                     position := pos0 }
        else { (stop u) with current_index := -1, current_file_path := none }
      | none => { (stop u) with current_index := -1, current_file_path := none }) := by
  cases hcp : u.current_file_path with
  | none =>
    apply cursorInv_of_absent _ rfl
    intro q hq
    simp
  | some p =>
    dsimp only
    by_cases hmem : p ∈ u.playlist
    · rw [if_pos hmem]
      split <;>
        (apply cursorInv_of_valid
         · simp
         · simpa using List.indexOf_lt_length.mpr hmem
         · simp only [Int.toNat_natCast]
           rw [getD_indexOf_of_mem hmem])
    · rw [if_neg hmem]
      apply cursorInv_of_absent _ rfl
      intro q hq
      simp

theorem cursorInv_reload (s : PlayerState) (listing : List String) (d : Bool)
    (hs : cursorInv s) : cursorInv (reload_current_directory_playlist listing d s) := by
  unfold reload_current_directory_playlist
  dsimp only
  by_cases hc : ((if strOptTruthy s.current_file_path = true then
      dirname (s.current_file_path.getD "")
    else if s.last_dir ≠ "" then s.last_dir else "") ≠ "" ∧ d = true)
  · rw [if_pos hc]
    exact cursorInv_reload_core (load_directory_to_playlist listing s)
      (if s.playing = true then s.position else 0) s.playing
  · rw [if_neg hc]
    exact hs

/-- C6: after every operation, the cursor is `-1` iff the playlist is empty
or no playlist entry equals the current file path; otherwise the cursor is
a valid index whose entry equals the current file path. -/
theorem cursor_invariant_preserved (s : PlayerState) (hs : cursorInv s) :
    cursorInv (play_next s) ∧ cursorInv (play_previous s) ∧
    (∀ p, cursorInv (playlist_file_double_clicked p s)) ∧
    (∀ r listing, cursorInv (open_file r listing s)) ∧
    (∀ listing d, cursorInv (reload_current_directory_playlist listing d s)) :=
  ⟨cursorInv_play_next s hs, cursorInv_play_previous s hs,
   fun p => cursorInv_select s p hs,
   fun r listing => cursorInv_open_file s r listing hs,
   fun listing d => cursorInv_reload s listing d hs⟩

/-- Witness for `cursor_invariant_preserved` at a concrete state. -/
theorem cursor_invariant_preserved_witness :
    cursorInv (play_next navState) :=
  (cursor_invariant_preserved navState (by unfold cursorInv; decide)).1

/-! ## C5: reload during playback -/

/-- C5: when the playlist is reloaded while path `P` is the currently
playing selection and `P` is present in the freshly scanned list, the
cursor still points at `P` and the playback offset is preserved; when `P`
is absent from the new list, playback stops, the cursor resets to `-1`,
and the current file path is cleared. -/
theorem reload_preserves_playing_track (listing : List String) (p : String) (s : PlayerState)
    (hp : s.current_file_path = some p) (hne : p ≠ "") (hdir : dirname p ≠ "")
    (hplay : s.playing = true) :
    (p ∈ List.insertionSort keyLE listing →
       (reload_current_directory_playlist listing true s).current_index =
         ((List.insertionSort keyLE listing).indexOf p : Int) ∧
       (reload_current_directory_playlist listing true s).current_file_path = some p ∧
       (reload_current_directory_playlist listing true s).playlist.getD
         ((List.insertionSort keyLE listing).indexOf p) "" = p ∧
       (reload_current_directory_playlist listing true s).playing = true ∧
       (reload_current_directory_playlist listing true s).position = s.position) ∧
    (p ∉ List.insertionSort keyLE listing →
       (reload_current_directory_playlist listing true s).playing = false ∧
       (reload_current_directory_playlist listing true s).current_index = -1 ∧
       (reload_current_directory_playlist listing true s).current_file_path = none) := by
  constructor
  · intro hmem
    simp only [reload_current_directory_playlist, load_directory_to_playlist,
      strOptTruthy, hp, Option.getD_some, ne_eq, hne, hdir, hplay, hmem,
      not_false_eq_true, bne_iff_ne, if_true, and_self, ite_true]
    exact ⟨trivial, trivial, getD_indexOf_of_mem hmem, trivial⟩
  · intro hmem
    simp only [reload_current_directory_playlist, load_directory_to_playlist,
      strOptTruthy, hp, Option.getD_some, ne_eq, hne, hdir, hplay, hmem,
      not_false_eq_true, bne_iff_ne, if_true, and_self, ite_true, if_false, stop]


/-- Witness for `reload_preserves_playing_track` at a concrete state. -/
theorem reload_preserves_playing_track_witness :
    (reload_current_directory_playlist ["/d/a.mp3"] true reloadState).current_index =
      ((List.insertionSort keyLE ["/d/a.mp3"]).indexOf "/d/a.mp3" : Int) ∧
    (reload_current_directory_playlist ["/d/a.mp3"] true reloadState).current_file_path =
      some "/d/a.mp3" ∧
    (reload_current_directory_playlist ["/d/a.mp3"] true reloadState).playlist.getD
      ((List.insertionSort keyLE ["/d/a.mp3"]).indexOf "/d/a.mp3") "" = "/d/a.mp3" ∧
    (reload_current_directory_playlist ["/d/a.mp3"] true reloadState).playing = true ∧
    (reload_current_directory_playlist ["/d/a.mp3"] true reloadState).position =
      reloadState.position :=
  (reload_preserves_playing_track ["/d/a.mp3"] "/d/a.mp3" reloadState rfl
    (by decide) (by decide) rfl).1 (by decide)

/-! ## C3 groundwork: the lexicographic comparison -/

theorem lexLE_refl : ∀ xs : List Char, lexLE xs xs = true := by
  intro xs
  induction xs with
  | nil => rfl
  | cons a as ih => simp [lexLE, ih]

theorem lexLE_total : ∀ xs ys : List Char, lexLE xs ys = true ∨ lexLE ys xs = true := by
  intro xs
  induction xs with
  | nil => intro ys; exact Or.inl rfl
  | cons a as ih =>
    intro ys
    cases ys with
    | nil => exact Or.inr rfl
    | cons b bs =>
      by_cases hab : a.toNat < b.toNat
      · exact Or.inl (by simp [lexLE, hab])
      · by_cases hba : b.toNat < a.toNat
        · exact Or.inr (by simp [lexLE, hba, hab])
        · rcases ih bs with h | h
          · exact Or.inl (by simp [lexLE, hab, hba, h])
          · exact Or.inr (by simp [lexLE, hab, hba, h])

theorem lexLE_trans : ∀ xs ys zs : List Char,
    lexLE xs ys = true → lexLE ys zs = true → lexLE xs zs = true := by
  intro xs
  induction xs with
  | nil => intro ys zs _ _; rfl
  | cons a as ih =>
    intro ys zs h1 h2
    cases ys with
    | nil => simp [lexLE] at h1
    | cons b bs =>
      cases zs with
      | nil => simp [lexLE] at h2
      | cons c cs =>
        simp only [lexLE] at h1 h2 ⊢
        by_cases hab : a.toNat < b.toNat <;> by_cases hbc : b.toNat < c.toNat <;>
          by_cases hba : b.toNat < a.toNat <;> by_cases hcb : c.toNat < b.toNat <;>
            simp_all <;>
              first
                | omega
                | exact Or.inr ⟨by omega, ih bs cs h1 h2⟩

theorem keyList_cons (x : Char) (xs : List Char) :
    keyList (x :: xs) = pinyinChar x ++ keyList xs := by
  simp [keyList]

/-- Each character's transliteration is either the pass-through singleton,
or (for a table entry) a nonempty lowercase-ASCII reading of a CJK
character. -/
theorem pinyinChar_spec (c : Char) :
    pinyinChar c = [c] ∨
    (19968 ≤ c.toNat ∧ pinyinChar c ≠ [] ∧
      ∀ d ∈ pinyinChar c, 97 ≤ d.toNat ∧ d.toNat ≤ 122) := by
  by_cases h1 : c = '啊'
  · subst h1; decide
  by_cases h2 : c = '妈'
  · subst h2; decide
  by_cases h3 : c = '马'
  · subst h3; decide
  by_cases h4 : c = '波'
  · subst h4; decide
  by_cases h5 : c = '乐'
  · subst h5; decide
  by_cases h6 : c = '云'
  · subst h6; decide
  left
  unfold pinyinChar pinyinTable
  have e1 : (c == '啊') = false := beq_eq_false_iff_ne.mpr h1
  have e2 : (c == '妈') = false := beq_eq_false_iff_ne.mpr h2
  have e3 : (c == '马') = false := beq_eq_false_iff_ne.mpr h3
  have e4 : (c == '波') = false := beq_eq_false_iff_ne.mpr h4
  have e5 : (c == '乐') = false := beq_eq_false_iff_ne.mpr h5
  have e6 : (c == '云') = false := beq_eq_false_iff_ne.mpr h6
  simp [List.lookup, e1, e2, e3, e4, e5, e6]

theorem toLower_eq_self_of_not_upper {c : Char} (h : ¬(65 ≤ c.toNat ∧ c.toNat ≤ 90)) :
    c.toLower = c := by
  unfold Char.toLower
  rw [if_neg (by omega)]

theorem lexLE_head_determined {x y : Char} (hne : x.toNat ≠ y.toNat)
    (as bs as' bs' : List Char) :
    lexLE (x :: as) (y :: bs) = lexLE (x :: as') (y :: bs') := by
  simp only [lexLE]
  by_cases hlt : x.toNat < y.toNat
  · rw [if_pos hlt, if_pos hlt]
  · rw [if_neg hlt, if_neg hlt, if_pos (by omega), if_pos (by omega)]

/-- When two strings have the same pinyin key, Qt's case-insensitive
filename comparison agrees with the plain code-point comparison: any tie
in the key forces the first differing characters to be either two table
(CJK) characters or a lowercase reading letter against a CJK character,
and `Char.toLower` is the identity on all of those. -/
theorem lexLE_toLower_of_keyList_eq :
    ∀ xs ys : List Char, keyList xs = keyList ys →
      lexLE (xs.map Char.toLower) (ys.map Char.toLower) = lexLE xs ys := by
  intro xs
  induction xs with
  | nil => intro ys _; rfl
  | cons x xs' ih =>
    intro ys hk
    cases ys with
    | nil => rfl
    | cons y ys' =>
      rw [keyList_cons, keyList_cons] at hk
      by_cases hxy : x = y
      · subst hxy
        have hk' : keyList xs' = keyList ys' := List.append_cancel_left hk
        simp only [List.map_cons, lexLE, Nat.lt_irrefl, if_false]
        exact ih ys' hk'
      · have hfold : x.toLower = x ∧ y.toLower = y := by
          rcases pinyinChar_spec x with hx | ⟨hxc, hxne, hxv⟩ <;>
            rcases pinyinChar_spec y with hy | ⟨hyc, hyne, hyv⟩
          · rw [hx, hy] at hk
            simp at hk
            exact absurd hk.1 hxy
          · rw [hx] at hk
            obtain ⟨d, ds, hd⟩ := List.exists_cons_of_ne_nil hyne
            rw [hd] at hk
            simp at hk
            have hdmem : d ∈ pinyinChar y := by
              rw [hd]
              exact List.mem_cons_self _ _
            have hxlow := hyv d hdmem
            have hxd : x = d := hk.1
            constructor
            · apply toLower_eq_self_of_not_upper
              rw [hxd]
              omega
            · exact toLower_eq_self_of_not_upper (by omega)
          · rw [hy] at hk
            obtain ⟨d, ds, hd⟩ := List.exists_cons_of_ne_nil hxne
            rw [hd] at hk
            simp at hk
            have hdmem : d ∈ pinyinChar x := by
              rw [hd]
              exact List.mem_cons_self _ _
            have hylow := hxv d hdmem
            have hyd : d = y := hk.1
            constructor
            · exact toLower_eq_self_of_not_upper (by omega)
            · apply toLower_eq_self_of_not_upper
              rw [← hyd]
              omega
          · exact ⟨toLower_eq_self_of_not_upper (by omega),
              toLower_eq_self_of_not_upper (by omega)⟩
        have hne' : x.toNat ≠ y.toNat := by
          intro hh
          exact hxy (Char.ext (UInt32.toNat.inj hh))
        simp only [List.map_cons, hfold.1, hfold.2]
        exact lexLE_head_determined hne' _ _ _ _

/-- Inserting `x` into a `scanLE`-sorted list keeps it sorted, provided `x`
precedes (by name) every element it ties with in the key. -/
theorem pairwise_orderedInsert_scan (x : String) :
    ∀ l : List String, l.Pairwise scanLE →
      (∀ y ∈ l, sortKey x = sortKey y →
        lexLE (basename x).data (basename y).data = true) →
      (List.orderedInsert keyLE x l).Pairwise scanLE := by
  intro l
  induction l with
  | nil =>
    intro _ _
    simp [List.orderedInsert]
  | cons y ys ih =>
    intro hl hx
    rw [List.pairwise_cons] at hl
    obtain ⟨hy, hys⟩ := hl
    by_cases hxy : keyLE x y
    · rw [List.orderedInsert, if_pos hxy]
      refine List.Pairwise.cons ?_ (List.Pairwise.cons hy hys)
      intro z hz
      rcases List.mem_cons.mp hz with rfl | hzys
      · exact ⟨hxy, fun he => hx z (List.mem_cons_self _ _) he⟩
      · refine ⟨?_, fun he => hx z (List.mem_cons_of_mem _ hzys) he⟩
        unfold keyLE at hxy ⊢
        exact lexLE_trans _ _ _ hxy (hy z hzys).1
    · rw [List.orderedInsert, if_neg hxy]
      have hyx : keyLE y x := by
        rcases lexLE_total (sortKey x) (sortKey y) with h | h
        · exact absurd h hxy
        · exact h
      refine List.Pairwise.cons ?_
        (ih hys (fun z hz he => hx z (List.mem_cons_of_mem _ hz) he))
      intro z hz
      rcases (List.mem_orderedInsert keyLE).mp hz with rfl | hzys
      · exact ⟨hyx, fun he =>
          absurd (by unfold keyLE; rw [he]; exact lexLE_refl _) hxy⟩
      · exact hy z hzys

/-- C3: for every directory listing — which `QDir.entryInfoList` delivers
in Qt's default order, case-insensitively sorted by filename (the
hypothesis) — the scan produces a permutation of the listing ordered by
comparing the pinyin transliteration of each filename lexicographically,
with ties in the transliterated key broken by comparing the original
filenames. -/
theorem scan_orders_by_pinyin_key_then_name (listing : List String) (s : PlayerState)
    (hin : listing.Pairwise ciNameLE) :
    ((load_directory_to_playlist listing s).playlist).Perm listing ∧
    ((load_directory_to_playlist listing s).playlist).Pairwise scanLE := by
  refine ⟨List.perm_insertionSort keyLE listing, ?_⟩
  show (List.insertionSort keyLE listing).Pairwise scanLE
  induction hin with
  | nil => simp [List.insertionSort]
  | cons hx hl ih =>
    rename_i x l
    rw [List.insertionSort]
    apply pairwise_orderedInsert_scan
    · exact ih
    · intro y hy he
      have hyl : y ∈ l := (List.perm_insertionSort keyLE l).mem_iff.mp hy
      have hci := hx y hyl
      have hagree := lexLE_toLower_of_keyList_eq (basename x).data (basename y).data he
      unfold ciNameLE at hci
      rw [hagree] at hci
      exact hci

/-- Witness for `scan_orders_by_pinyin_key_then_name` at the spec's example
listing (the directory holding `a.mp3`, `b.mp3`, `啊.mp3`). -/
theorem scan_orders_by_pinyin_key_then_name_witness :
    ((load_directory_to_playlist ["/d/a.mp3", "/d/b.mp3", "/d/啊.mp3"]
        navState).playlist).Perm ["/d/a.mp3", "/d/b.mp3", "/d/啊.mp3"] ∧
    ((load_directory_to_playlist ["/d/a.mp3", "/d/b.mp3", "/d/啊.mp3"]
        navState).playlist).Pairwise scanLE :=
  scan_orders_by_pinyin_key_then_name _ navState (by decide)
